import Mathlib

/-!
# Verification of the Vban token ledger (src/lib.rs)

Shallow embedding of the ink! contract `Vban`: a fixed-supply fungible-token
ledger with a storage mapping from account to balance and a single mutating
operation, `transfer`.

Modelling choices:
* `AccountId` (an opaque 32-byte key in the source) is modelled as `Nat`: the
  core only compares account identifiers for equality.
* `Balance` (`u128` in the source) is modelled as `Nat`; where overflow of the
  128-bit type matters, arithmetic is explicitly checked against
  `u128MAX = 2 ^ 128 - 1`.
* `ink::storage::Mapping` is modelled as an association list with overwriting
  `insert` and key lookup `get`; an absent key reads as `none`, and
  `balance_of` applies `unwrap_or_default`, i.e. `Option.getD 0`.
* `&mut self` methods become state-passing functions returning the new state;
  a checked-arithmetic trap (contract panic / revert) is the `none` result,
  which produces no new state.
* The ambient `self.env().caller()` becomes an explicit `caller` argument.
-/

/-- The largest value representable in the source's `Balance` type (`u128`). -/
def u128MAX : Nat := 2 ^ 128 - 1

namespace Mapping

/-- Lookup in the storage mapping (`Mapping::get`): first entry with the given
key, `none` when the key is absent. -/
def get : List (Nat × Nat) → Nat → Option Nat
  | [], _ => none
  | (k, v) :: rest, a => if k = a then some v else get rest a

/-- Overwriting insertion (`Mapping::insert`): replaces the entry for the key
when present, otherwise appends a fresh entry. -/
def insert : List (Nat × Nat) → Nat → Nat → List (Nat × Nat)
  | [], a, v => [(a, v)]
  | (k, w) :: rest, a, v =>
      if k = a then (a, v) :: rest else (k, w) :: insert rest a v

/-- Lookup with default zero: the balance an absent key reads as. -/
def getD (m : List (Nat × Nat)) (a : Nat) : Nat :=
  (get m a).getD 0

/-- Sum of all stored balances. -/
def sumValues : List (Nat × Nat) → Nat
  | [] => 0
  | (_, v) :: rest => v + sumValues rest

theorem get_insert_self (m : List (Nat × Nat)) (a v : Nat) :
    get (insert m a v) a = some v := by
  induction m with
  | nil => simp [insert, get]
  | cons hd rest ih =>
      obtain ⟨k, w⟩ := hd
      by_cases hk : k = a
      · simp [insert, hk, get]
      · simp [insert, hk, get, ih]

theorem get_insert_ne (m : List (Nat × Nat)) (a v : Nat)
    (b : Nat) (hb : b ≠ a) : get (insert m a v) b = get m b := by
  have hab : a ≠ b := Ne.symm hb
  induction m with
  | nil => simp [insert, get, hab]
  | cons hd rest ih =>
      obtain ⟨k, w⟩ := hd
      by_cases hk : k = a
      · subst hk
        simp [insert, get, hab]
      · simp [insert, hk, get, ih]

theorem getD_insert_self (m : List (Nat × Nat)) (a v : Nat) :
    getD (insert m a v) a = v := by
  simp [getD, get_insert_self]

theorem getD_insert_ne (m : List (Nat × Nat)) (a v : Nat)
    (b : Nat) (hb : b ≠ a) : getD (insert m a v) b = getD m b := by
  simp [getD, get_insert_ne m a v b hb]

/-- Replacing the entry for one key changes the total stored sum by removing
the key's old contribution and adding the new value. -/
theorem sum_insert (m : List (Nat × Nat)) (a v : Nat) :
    sumValues (insert m a v) + getD m a = sumValues m + v := by
  induction m with
  | nil => simp [insert, sumValues, getD, get]
  | cons hd rest ih =>
      obtain ⟨k, w⟩ := hd
      by_cases hk : k = a
      · subst hk
        simp only [insert, if_pos rfl, sumValues, getD, get, if_true, Option.getD_some]
        omega
      · simp only [insert, if_neg hk, sumValues, getD, get, Option.getD_some]
        simp only [getD] at ih
        omega

/-- A single key's balance never exceeds the total stored sum. -/
theorem getD_le_sum (m : List (Nat × Nat)) (a : Nat) :
    getD m a ≤ sumValues m := by
  induction m with
  | nil => simp [getD, get, sumValues]
  | cons hd rest ih =>
      obtain ⟨k, w⟩ := hd
      by_cases hk : k = a
      · simp only [getD, get, if_pos hk, Option.getD_some, sumValues]
        omega
      · simp only [getD, get, if_neg hk, sumValues]
        simp only [getD] at ih
        omega

/-- Two distinct keys' balances jointly never exceed the total stored sum. -/
theorem getD_add_getD_le_sum (m : List (Nat × Nat)) (a b : Nat)
    (hab : a ≠ b) : getD m a + getD m b ≤ sumValues m := by
  induction m with
  | nil => simp [getD, get, sumValues]
  | cons hd rest ih =>
      obtain ⟨k, w⟩ := hd
      have hrb := getD_le_sum rest b
      have hra := getD_le_sum rest a
      by_cases hka : k = a
      · subst hka
        simp only [getD, get, if_pos rfl, if_neg hab, if_true, Option.getD_some, sumValues]
        simp only [getD] at hrb
        omega
      · by_cases hkb : k = b
        · subst hkb
          simp only [getD, get, if_neg hka, if_pos rfl, if_true, Option.getD_some, sumValues]
          simp only [getD] at hra
          omega
        · simp only [getD, get, if_neg hka, if_neg hkb, sumValues]
          simp only [getD] at ih
          omega

end Mapping

/-- The contract's error enum: `InsufficientBalance` is its only variant. -/
inductive Error where
  | InsufficientBalance
deriving DecidableEq

/-- Storage of the `Vban` contract: the fixed total supply and the mapping
from owner to number of owned tokens. -/
structure Vban where
  total_supply : Nat
  balances : List (Nat × Nat)
deriving DecidableEq

/-- Modelled from the spec: the build profile that decides whether `u128`
subtraction traps on underflow is not under `src/` (it lives in the crate
manifest); the spec requires every arithmetic step to be pre-validated or
checked, failing loudly rather than wrapping, so subtraction is modelled as
checked, `none` being the trap. -/
def checked_sub (a b : Nat) : Option Nat :=
  if b ≤ a then some (a - b) else none

/-- Modelled from the spec: the build profile that decides whether `u128`
addition traps on overflow is not under `src/` (it lives in the crate
manifest); the spec requires the addition to be checked against the balance
type's maximum, failing loudly rather than wrapping, so addition is modelled
as checked against `u128MAX`, `none` being the trap. -/
def checked_add (a b : Nat) : Option Nat :=
  if a + b ≤ u128MAX then some (a + b) else none

/-- Constructor `Vban::new`: create the contract with an initial supply,
crediting the whole supply to the constructing caller
(`Self::env().caller()`, passed explicitly here). -/
def Vban.new (caller : Nat) (total_supply : Nat) : Vban :=
  { total_supply := total_supply
    balances := Mapping.insert [] caller total_supply }

/-- Query `Vban::balance_of`: the stored balance for `owner`, with
`unwrap_or_default` turning an absent entry into zero. -/
def Vban.balance_of (s : Vban) (owner : Nat) : Nat :=
  (Mapping.get s.balances owner).getD 0

/-- Engine `Vban::transfer_token`: check sufficiency, then debit the source and
credit the destination. A `some (s2, r)` result is a normal return with new
state `s2`; `none` is a checked-arithmetic trap (panic / revert), which
yields no state. -/
def Vban.transfer_token (s : Vban) (from_ to_ : Nat) (value : Nat) :
    Option (Vban × Except Error Unit) :=
  let from_balance := s.balance_of from_
  if from_balance < value then
    some (s, Except.error Error.InsufficientBalance)
  else
    match checked_sub from_balance value with
    | none => none
    | some new_from_balance =>
      let s1 : Vban := { s with balances := Mapping.insert s.balances from_ new_from_balance }
      let to_balance := s1.balance_of to_
      match checked_add to_balance value with
      | none => none
      | some new_to_balance =>
        some ({ s1 with balances := Mapping.insert s1.balances to_ new_to_balance },
              Except.ok ())

/-- Message `Vban::transfer`: the public entry point; the source account is the ambient
caller (`self.env().caller()`, passed explicitly here). -/
def Vban.transfer (s : Vban) (caller to_ : Nat) (value : Nat) :
    Option (Vban × Except Error Unit) :=
  s.transfer_token caller to_ value

/-- The ledger states reachable from `Vban::new caller S` by any sequence of
`transfer` calls, keeping the returned state whether the call succeeds or
returns the error (a trap yields no state, so there is nothing to keep). -/
inductive Vban.Reachable (caller : Nat) (S : Nat) : Vban → Prop where
  | init : Vban.Reachable caller S (Vban.new caller S)
  | step (s s2 : Vban) (c to_ v : Nat) (r : Except Error Unit) :
      Vban.Reachable caller S s → Vban.transfer s c to_ v = some (s2, r) →
      Vban.Reachable caller S s2

theorem Vban.balance_of_def (s : Vban) (a : Nat) :
    s.balance_of a = Mapping.getD s.balances a := rfl

/-- Closed-form description of `transfer_token`: error below sufficiency,
otherwise debit-then-credit with the credit checked against `u128MAX`. -/
theorem Vban.transfer_token_spec (s : Vban) (from_ to_ : Nat) (value : Nat) :
    Vban.transfer_token s from_ to_ value =
      if s.balance_of from_ < value then
        some (s, Except.error Error.InsufficientBalance)
      else if Mapping.getD (Mapping.insert s.balances from_ (s.balance_of from_ - value)) to_
          + value ≤ u128MAX then
        some ({ total_supply := s.total_supply,
                balances := Mapping.insert
                  (Mapping.insert s.balances from_ (s.balance_of from_ - value)) to_
                  (Mapping.getD (Mapping.insert s.balances from_ (s.balance_of from_ - value)) to_
                    + value) },
              Except.ok ())
      else none := by
  unfold Vban.transfer_token checked_sub checked_add
  by_cases h1 : s.balance_of from_ < value
  · simp [h1]
  · have hle : value ≤ s.balance_of from_ := Nat.not_lt.mp h1
    simp only [if_neg h1, if_pos hle]
    have hbal : Vban.balance_of
        { s with balances := Mapping.insert s.balances from_ (s.balance_of from_ - value) } to_
        = Mapping.getD (Mapping.insert s.balances from_ (s.balance_of from_ - value)) to_ := rfl
    by_cases h2 : Mapping.getD (Mapping.insert s.balances from_ (s.balance_of from_ - value)) to_
        + value ≤ u128MAX
    · simp only [hbal, if_pos h2]
    · simp only [hbal, if_neg h2]

/-- Every normal return of `transfer_token` is either the untouched-state
insufficient-balance error or the debit-then-credit success state. -/
theorem Vban.transfer_token_cases (s s2 : Vban) (from_ to_ v : Nat) (r : Except Error Unit)
    (h : Vban.transfer_token s from_ to_ v = some (s2, r)) :
    (s2 = s ∧ r = Except.error Error.InsufficientBalance ∧ s.balance_of from_ < v) ∨
    (r = Except.ok () ∧ ¬ s.balance_of from_ < v ∧
      Mapping.getD (Mapping.insert s.balances from_ (s.balance_of from_ - v)) to_ + v ≤ u128MAX ∧
      s2 = { total_supply := s.total_supply,
             balances := Mapping.insert
               (Mapping.insert s.balances from_ (s.balance_of from_ - v)) to_
               (Mapping.getD (Mapping.insert s.balances from_ (s.balance_of from_ - v)) to_
                 + v) }) := by
  rw [Vban.transfer_token_spec] at h
  by_cases h1 : s.balance_of from_ < v
  · rw [if_pos h1] at h
    simp only [Option.some.injEq, Prod.mk.injEq] at h
    exact Or.inl ⟨h.1.symm, h.2.symm, h1⟩
  · rw [if_neg h1] at h
    by_cases h2 : Mapping.getD (Mapping.insert s.balances from_ (s.balance_of from_ - v)) to_
        + v ≤ u128MAX
    · rw [if_pos h2] at h
      simp only [Option.some.injEq, Prod.mk.injEq] at h
      exact Or.inr ⟨h.2.symm, h1, h2, h.1.symm⟩
    · rw [if_neg h2] at h
      exact absurd h (by simp)

/-- Any normal return of `transfer` preserves the stored-balance sum and the
total-supply field. -/
theorem Vban.transfer_some_sum (s s2 : Vban) (c to_ v : Nat) (r : Except Error Unit)
    (h : Vban.transfer s c to_ v = some (s2, r)) :
    Mapping.sumValues s2.balances = Mapping.sumValues s.balances ∧
    s2.total_supply = s.total_supply := by
  rcases Vban.transfer_token_cases s s2 c to_ v r h with ⟨hs, _, _⟩ | ⟨_, h1, _, hs⟩
  · subst hs
    exact ⟨rfl, rfl⟩
  · subst hs
    dsimp only
    refine ⟨?_, rfl⟩
    have e1 := Mapping.sum_insert s.balances c (s.balance_of c - v)
    have e2 := Mapping.sum_insert (Mapping.insert s.balances c (s.balance_of c - v)) to_
      (Mapping.getD (Mapping.insert s.balances c (s.balance_of c - v)) to_ + v)
    have hbal : s.balance_of c = Mapping.getD s.balances c := rfl
    omega

/-- C1: starting from the state produced by `new caller S`, after every
sequence of `transfer` calls — each returning success or the error — the sum
of all stored balances equals the `total_supply` field, which still equals
`S`. -/
theorem vban_conservation (caller S : Nat) (s : Vban)
    (h : Vban.Reachable caller S s) :
    Mapping.sumValues s.balances = s.total_supply ∧ s.total_supply = S := by
  induction h with
  | init =>
      refine ⟨?_, rfl⟩
      simp [Vban.new, Mapping.insert, Mapping.sumValues]
  | step s s2 c to2 v r hr htr ih =>
      obtain ⟨hsum, hts⟩ := Vban.transfer_some_sum s s2 c to2 v r htr
      exact ⟨by omega, by omega⟩

/-- C1 witness: the freshly constructed ledger `new 0 100` satisfies both
conservation conjuncts. -/
theorem vban_conservation_witness :
    Mapping.sumValues (Vban.new 0 100).balances = (Vban.new 0 100).total_supply ∧
    (Vban.new 0 100).total_supply = 100 :=
  vban_conservation 0 100 (Vban.new 0 100) Vban.Reachable.init

/-- C2: `transfer` returns the `InsufficientBalance` error exactly when the
caller's balance is strictly below the requested value, and every error
return leaves the entire ledger state — all balances and `total_supply` —
exactly as it was before the call. -/
theorem vban_error_iff_insufficient (s : Vban) (caller to2 v : Nat) :
    ((∃ s2, Vban.transfer s caller to2 v = some (s2, Except.error Error.InsufficientBalance)) ↔
      s.balance_of caller < v) ∧
    (∀ s2 e, Vban.transfer s caller to2 v = some (s2, Except.error e) → s2 = s) := by
  constructor
  · constructor
    · rintro ⟨s2, h⟩
      rcases Vban.transfer_token_cases s s2 caller to2 v _ h with ⟨_, _, h1⟩ | ⟨hr, _, _, _⟩
      · exact h1
      · exact Except.noConfusion hr
    · intro h1
      refine ⟨s, ?_⟩
      rw [Vban.transfer, Vban.transfer_token_spec, if_pos h1]
  · intro s2 e h
    rcases Vban.transfer_token_cases s s2 caller to2 v _ h with ⟨hs, _, _⟩ | ⟨hr, _, _, _⟩
    · exact hs
    · exact Except.noConfusion hr

/-- C2 witness: on `new 0 100` the caller `1` holds nothing, so a transfer of
`5` returns the error with the state untouched. -/
theorem vban_error_iff_insufficient_witness :
    Vban.transfer (Vban.new 0 100) 1 0 5 =
      some (Vban.new 0 100, Except.error Error.InsufficientBalance) := by
  obtain ⟨s2, h⟩ :=
    (vban_error_iff_insufficient (Vban.new 0 100) 1 0 5).1.mpr (by decide)
  have hs := (vban_error_iff_insufficient (Vban.new 0 100) 1 0 5).2 s2
    Error.InsufficientBalance h
  rw [hs] at h
  exact h

/-- C3: once the sufficiency check has passed, the credit addition is checked
against the `Balance` maximum: the call traps — failing loudly with no
resulting state — exactly when the mathematical sum would exceed `u128MAX`,
and every success stores the exact mathematical sum, never a wrapped value. -/
theorem vban_credit_addition_checked (s : Vban) (from_ to2 v : Nat)
    (hge : ¬ s.balance_of from_ < v) :
    (Vban.transfer_token s from_ to2 v = none ↔
      u128MAX <
        Mapping.getD (Mapping.insert s.balances from_ (s.balance_of from_ - v)) to2 + v) ∧
    ∀ s2, Vban.transfer_token s from_ to2 v = some (s2, Except.ok ()) →
      s2.balance_of to2 =
        Mapping.getD (Mapping.insert s.balances from_ (s.balance_of from_ - v)) to2 + v := by
  have hspec := Vban.transfer_token_spec s from_ to2 v
  rw [if_neg hge] at hspec
  by_cases h2 : Mapping.getD (Mapping.insert s.balances from_ (s.balance_of from_ - v)) to2
      + v ≤ u128MAX
  · rw [if_pos h2] at hspec
    constructor
    · rw [hspec]
      constructor
      · intro h
        exact absurd h (by simp)
      · intro h
        exact absurd h2 (by omega)
    · intro s2 h
      rw [hspec] at h
      simp only [Option.some.injEq, Prod.mk.injEq] at h
      rw [← h.1, Vban.balance_of_def]
      dsimp only
      exact Mapping.getD_insert_self ..
  · rw [if_neg h2] at hspec
    constructor
    · rw [hspec]
      constructor
      · intro _
        omega
      · intro _
        rfl
    · intro s2 h
      rw [hspec] at h
      exact absurd h (by simp)

/-- C3 witness: on `new 0 100` a covered transfer of `10` does not trap — the
checked addition stays below the maximum. -/
theorem vban_credit_addition_checked_witness :
    Vban.transfer_token (Vban.new 0 100) 0 1 10 ≠ none := by
  intro h
  have h2 := (vban_credit_addition_checked (Vban.new 0 100) 0 1 10 (by decide)).1.mp h
  exact absurd h2 (by decide)

/-- C4 counterexample: in the u128-representable state with balances
`{0 ↦ u128MAX, 1 ↦ 1}`, the caller `1` differs from the destination `0` and
covers the value `1`, yet `transfer` does not return `Ok(())`: the checked
credit addition would exceed the `Balance` maximum, so the call traps and
produces no state at all. -/
theorem vban_transfer_updates_cex :
    (1 : Nat) ≠ 0 ∧
    1 ≤ Vban.balance_of ⟨u128MAX, [(0, u128MAX), (1, 1)]⟩ 1 ∧
    Vban.transfer ⟨u128MAX, [(0, u128MAX), (1, 1)]⟩ 1 0 1 = none := by
  refine ⟨by decide, by decide, ?_⟩
  rfl

/-- C4 (amended): on every ledger state satisfying the documented
conservation invariant — the sum of stored balances equals `total_supply`,
itself representable in `u128`, as holds in every state reachable from
`new` — if the caller differs from the destination and covers the value,
`transfer` returns `Ok(())`, the caller's balance drops by the value and the
destination's balance grows by the value. -/
theorem vban_transfer_updates_both_sides (s : Vban) (caller to2 v : Nat)
    (hsum : Mapping.sumValues s.balances = s.total_supply)
    (hts : s.total_supply ≤ u128MAX)
    (hne : caller ≠ to2) (hbal : v ≤ s.balance_of caller) :
    ∃ s2, Vban.transfer s caller to2 v = some (s2, Except.ok ()) ∧
      s2.balance_of caller = s.balance_of caller - v ∧
      s2.balance_of to2 = s.balance_of to2 + v := by
  have hge : ¬ s.balance_of caller < v := Nat.not_lt.mpr hbal
  have htb : Mapping.getD (Mapping.insert s.balances caller (s.balance_of caller - v)) to2
      = Mapping.getD s.balances to2 :=
    Mapping.getD_insert_ne _ caller _ to2 (Ne.symm hne)
  have hsumb := Mapping.getD_add_getD_le_sum s.balances caller to2 hne
  have hb1 : s.balance_of caller = Mapping.getD s.balances caller := rfl
  have hb2 : s.balance_of to2 = Mapping.getD s.balances to2 := rfl
  have h2 : Mapping.getD (Mapping.insert s.balances caller (s.balance_of caller - v)) to2
      + v ≤ u128MAX := by
    rw [htb]
    omega
  refine ⟨{ total_supply := s.total_supply,
            balances := Mapping.insert
              (Mapping.insert s.balances caller (s.balance_of caller - v)) to2
              (Mapping.getD (Mapping.insert s.balances caller (s.balance_of caller - v)) to2
                + v) }, ?_, ?_, ?_⟩
  · rw [Vban.transfer, Vban.transfer_token_spec, if_neg hge, if_pos h2]
  · rw [Vban.balance_of_def]
    dsimp only
    rw [Mapping.getD_insert_ne _ to2 _ caller hne, Mapping.getD_insert_self]
  · rw [Vban.balance_of_def]
    dsimp only
    rw [Mapping.getD_insert_self, htb, ← hb2]

/-- C4 witness for the amended claim: from `new 0 100`, transferring `10` to
account `1` leaves the constructor with `90` and the destination with `10`. -/
theorem vban_transfer_updates_both_sides_witness :
    Vban.balance_of ⟨100, [(0, 90), (1, 10)]⟩ 0 = Vban.balance_of (Vban.new 0 100) 0 - 10 ∧
    Vban.balance_of ⟨100, [(0, 90), (1, 10)]⟩ 1 = Vban.balance_of (Vban.new 0 100) 1 + 10 := by
  obtain ⟨s2, heq, h1, h2⟩ := vban_transfer_updates_both_sides (Vban.new 0 100) 0 1 10
    (by decide) (by decide) (by decide) (by decide)
  have hc : Vban.transfer (Vban.new 0 100) 0 1 10 =
      some (⟨100, [(0, 90), (1, 10)]⟩, Except.ok ()) := rfl
  rw [hc] at heq
  simp only [Option.some.injEq, Prod.mk.injEq] at heq
  rw [← heq.1] at h1 h2
  exact ⟨h1, h2⟩

/-- C5: a self-transfer whose value is covered succeeds and leaves every
account's balance — the caller's included — observably unchanged; the plain
debit-then-credit sequence achieves this because the credit reads the
destination balance after the debit. The hypothesis `hrep` records that the
caller's stored balance fits the source's `u128` type, which every real state
satisfies by construction of the type. -/
theorem vban_self_transfer_noop (s : Vban) (caller v : Nat)
    (hrep : s.balance_of caller ≤ u128MAX)
    (hbal : v ≤ s.balance_of caller) :
    ∃ s2, Vban.transfer s caller caller v = some (s2, Except.ok ()) ∧
      ∀ a, s2.balance_of a = s.balance_of a := by
  have hge : ¬ s.balance_of caller < v := Nat.not_lt.mpr hbal
  have htb : Mapping.getD (Mapping.insert s.balances caller (s.balance_of caller - v)) caller
      = s.balance_of caller - v := Mapping.getD_insert_self ..
  have h2 : Mapping.getD (Mapping.insert s.balances caller (s.balance_of caller - v)) caller
      + v ≤ u128MAX := by
    rw [htb]
    omega
  refine ⟨{ total_supply := s.total_supply,
            balances := Mapping.insert
              (Mapping.insert s.balances caller (s.balance_of caller - v)) caller
              (Mapping.getD (Mapping.insert s.balances caller (s.balance_of caller - v)) caller
                + v) }, ?_, ?_⟩
  · rw [Vban.transfer, Vban.transfer_token_spec, if_neg hge, if_pos h2]
  · intro a
    rw [Vban.balance_of_def]
    dsimp only
    by_cases ha : a = caller
    · subst ha
      rw [Mapping.getD_insert_self, htb]
      have hb : s.balance_of a = Mapping.getD s.balances a := rfl
      omega
    · rw [Mapping.getD_insert_ne _ caller _ a ha, Mapping.getD_insert_ne _ caller _ a ha]
      rfl

/-- C5 witness: from `new 0 100`, a self-transfer of `10` succeeds and the
constructor still holds `100`. -/
theorem vban_self_transfer_noop_witness :
    Vban.balance_of ⟨100, [(0, 100)]⟩ 0 = Vban.balance_of (Vban.new 0 100) 0 := by
  obtain ⟨s2, heq, hall⟩ := vban_self_transfer_noop (Vban.new 0 100) 0 10
    (by decide) (by decide)
  have hc : Vban.transfer (Vban.new 0 100) 0 0 10 =
      some (⟨100, [(0, 100)]⟩, Except.ok ()) := rfl
  rw [hc] at heq
  simp only [Option.some.injEq, Prod.mk.injEq] at heq
  rw [← heq.1] at hall
  exact hall 0

/-- C6: the ledger constructed by `new c S` reports `total_supply = S`,
credits the whole supply to the constructing caller, and every other account
reads zero. -/
theorem vban_new_postconditions (c S : Nat) :
    (Vban.new c S).total_supply = S ∧
    (Vban.new c S).balance_of c = S ∧
    ∀ a, a ≠ c → (Vban.new c S).balance_of a = 0 := by
  refine ⟨rfl, ?_, ?_⟩
  · rw [Vban.balance_of_def]
    exact Mapping.getD_insert_self [] c S
  · intro a ha
    rw [Vban.balance_of_def]
    show Mapping.getD (Mapping.insert [] c S) a = 0
    rw [Mapping.getD_insert_ne [] c S a ha]
    rfl

/-- C6 witness: `new 0 100` at the constructor `0` and the stranger `1`. -/
theorem vban_new_postconditions_witness :
    (Vban.new 0 100).total_supply = 100 ∧
    Vban.balance_of (Vban.new 0 100) 0 = 100 ∧
    Vban.balance_of (Vban.new 0 100) 1 = 0 :=
  ⟨(vban_new_postconditions 0 100).1, (vban_new_postconditions 0 100).2.1,
    (vban_new_postconditions 0 100).2.2 1 (by decide)⟩

/-- C7: a zero-value transfer always succeeds and leaves every account's
balance observably unchanged, for any caller and destination. The hypothesis
`hrep` records that the destination's stored balance fits the source's
`u128` type, which every real state satisfies by construction of the type. -/
theorem vban_zero_transfer (s : Vban) (caller to2 : Nat)
    (hrep : s.balance_of to2 ≤ u128MAX) :
    ∃ s2, Vban.transfer s caller to2 0 = some (s2, Except.ok ()) ∧
      ∀ a, s2.balance_of a = s.balance_of a := by
  have hge : ¬ s.balance_of caller < 0 := by omega
  have hm1 : ∀ x, Mapping.getD (Mapping.insert s.balances caller (s.balance_of caller - 0)) x
      = Mapping.getD s.balances x := by
    intro x
    by_cases hx : x = caller
    · subst hx
      rw [Mapping.getD_insert_self, Nat.sub_zero]
      rfl
    · rw [Mapping.getD_insert_ne _ caller _ x hx]
  have hb2 : s.balance_of to2 = Mapping.getD s.balances to2 := rfl
  have h2 : Mapping.getD (Mapping.insert s.balances caller (s.balance_of caller - 0)) to2
      + 0 ≤ u128MAX := by
    rw [hm1 to2]
    omega
  refine ⟨{ total_supply := s.total_supply,
            balances := Mapping.insert
              (Mapping.insert s.balances caller (s.balance_of caller - 0)) to2
              (Mapping.getD (Mapping.insert s.balances caller (s.balance_of caller - 0)) to2
                + 0) }, ?_, ?_⟩
  · rw [Vban.transfer, Vban.transfer_token_spec, if_neg hge, if_pos h2]
  · intro a
    rw [Vban.balance_of_def]
    dsimp only
    by_cases ha : a = to2
    · subst ha
      rw [Mapping.getD_insert_self, Nat.add_zero, hm1 a]
      rfl
    · rw [Mapping.getD_insert_ne _ to2 _ a ha, hm1 a]
      rfl

/-- C7 witness: on `new 0 100`, the pauper caller `1` transfers `0` to the
constructor; the call succeeds and the constructor still reads `100`. -/
theorem vban_zero_transfer_witness :
    Vban.balance_of ⟨100, [(0, 100), (1, 0)]⟩ 0 = Vban.balance_of (Vban.new 0 100) 0 := by
  obtain ⟨s2, heq, hall⟩ := vban_zero_transfer (Vban.new 0 100) 1 0 (by decide)
  have hc : Vban.transfer (Vban.new 0 100) 1 0 0 =
      some (⟨100, [(0, 100), (1, 0)]⟩, Except.ok ()) := rfl
  rw [hc] at heq
  simp only [Option.some.injEq, Prod.mk.injEq] at heq
  rw [← heq.1] at hall
  exact hall 0

/-- C8: the queries are total — `balance_of` returns the stored balance, and
zero when the account has no entry in the mapping; `total_supply` returns the
constant set at construction, and no normal `transfer` return ever changes
the field. Both queries are pure functions of the state in this embedding, so
they mutate nothing. -/
theorem vban_queries_total (s : Vban) (a c S : Nat) :
    (Mapping.get s.balances a = none → s.balance_of a = 0) ∧
    (∀ b, Mapping.get s.balances a = some b → s.balance_of a = b) ∧
    (Vban.new c S).total_supply = S ∧
    (∀ s2 caller to2 v r, Vban.transfer s caller to2 v = some (s2, r) →
      s2.total_supply = s.total_supply) := by
  refine ⟨?_, ?_, rfl, ?_⟩
  · intro h
    rw [Vban.balance_of_def, Mapping.getD, h]
    rfl
  · intro b h
    rw [Vban.balance_of_def, Mapping.getD, h]
    rfl
  · intro s2 caller to2 v r h
    exact (Vban.transfer_some_sum s s2 caller to2 v r h).2

/-- C8 witness: on `new 0 100`, the absent account `1` reads zero, the stored
account `0` reads its entry `100`, and the supply query returns `100`. -/
theorem vban_queries_total_witness :
    Vban.balance_of (Vban.new 0 100) 1 = 0 ∧
    Vban.balance_of (Vban.new 0 100) 0 = 100 ∧
    (Vban.new 0 100).total_supply = 100 :=
  ⟨(vban_queries_total (Vban.new 0 100) 1 0 100).1 (by decide),
    (vban_queries_total (Vban.new 0 100) 0 0 100).2.1 100 (by decide),
    (vban_queries_total (Vban.new 0 100) 0 0 100).2.2.1⟩

/-- C9: the debit subtraction is evaluated only after the sufficiency check
has ruled out `balance < value`, so the checked subtraction returns the exact
difference — its trap branch is unreachable and the result, a natural number,
is never negative — and an exact-balance transfer to another account succeeds
leaving the source at zero. The conservation hypotheses are the ledger's
documented invariant, which bounds the credit addition. -/
theorem vban_guarded_subtraction (s : Vban) (from_ to2 v : Nat)
    (hge : ¬ s.balance_of from_ < v)
    (hsum : Mapping.sumValues s.balances = s.total_supply)
    (hts : s.total_supply ≤ u128MAX) :
    checked_sub (s.balance_of from_) v = some (s.balance_of from_ - v) ∧
    (s.balance_of from_ - v) + v = s.balance_of from_ ∧
    (v = s.balance_of from_ → to2 ≠ from_ →
      ∃ s2, Vban.transfer_token s from_ to2 v = some (s2, Except.ok ()) ∧
        s2.balance_of from_ = 0) := by
  refine ⟨?_, by omega, ?_⟩
  · unfold checked_sub
    rw [if_pos (Nat.not_lt.mp hge)]
  · intro hv hne2
    have htb : Mapping.getD (Mapping.insert s.balances from_ (s.balance_of from_ - v)) to2
        = Mapping.getD s.balances to2 :=
      Mapping.getD_insert_ne _ from_ _ to2 hne2
    have hsumb := Mapping.getD_add_getD_le_sum s.balances to2 from_ hne2
    have hb1 : s.balance_of from_ = Mapping.getD s.balances from_ := rfl
    have h2 : Mapping.getD (Mapping.insert s.balances from_ (s.balance_of from_ - v)) to2
        + v ≤ u128MAX := by
      rw [htb]
      omega
    refine ⟨{ total_supply := s.total_supply,
              balances := Mapping.insert
                (Mapping.insert s.balances from_ (s.balance_of from_ - v)) to2
                (Mapping.getD (Mapping.insert s.balances from_ (s.balance_of from_ - v)) to2
                  + v) }, ?_, ?_⟩
    · rw [Vban.transfer_token_spec, if_neg hge, if_pos h2]
    · rw [Vban.balance_of_def]
      dsimp only
      rw [Mapping.getD_insert_ne _ to2 _ from_ (Ne.symm hne2), Mapping.getD_insert_self]
      omega

/-- C9 witness: on `new 0 100`, the constructor's exact-balance data — the
checked subtraction succeeds with the exact difference, which rebuilds the
original balance. -/
theorem vban_guarded_subtraction_witness :
    checked_sub (Vban.balance_of (Vban.new 0 100) 0) 100 =
      some (Vban.balance_of (Vban.new 0 100) 0 - 100) ∧
    (Vban.balance_of (Vban.new 0 100) 0 - 100) + 100 =
      Vban.balance_of (Vban.new 0 100) 0 :=
  ⟨(vban_guarded_subtraction (Vban.new 0 100) 0 1 100 (by decide) (by decide) (by decide)).1,
    (vban_guarded_subtraction (Vban.new 0 100) 0 1 100 (by decide) (by decide) (by decide)).2.1⟩

/-- C10: frame of a successful transfer — the total-supply field is unchanged
and every account other than the caller and the destination keeps exactly its
balance; only the two named map entries are written. -/
theorem vban_transfer_frame (s s2 : Vban) (caller to2 v : Nat)
    (h : Vban.transfer s caller to2 v = some (s2, Except.ok ())) :
    s2.total_supply = s.total_supply ∧
    ∀ a, a ≠ caller → a ≠ to2 → s2.balance_of a = s.balance_of a := by
  rcases Vban.transfer_token_cases s s2 caller to2 v _ h with ⟨_, hr, _⟩ | ⟨_, _, _, hs⟩
  · exact Except.noConfusion hr
  · subst hs
    refine ⟨rfl, ?_⟩
    intro a ha1 ha2
    rw [Vban.balance_of_def]
    dsimp only
    rw [Mapping.getD_insert_ne _ to2 _ a ha2, Mapping.getD_insert_ne _ caller _ a ha1]
    rfl

/-- C10 witness: after the successful transfer of `10` from the constructor
of `new 0 100` to account `1`, the bystander `2` still reads its old balance
and the supply field is unchanged. -/
theorem vban_transfer_frame_witness :
    (⟨100, [(0, 90), (1, 10)]⟩ : Vban).total_supply = (Vban.new 0 100).total_supply ∧
    Vban.balance_of ⟨100, [(0, 90), (1, 10)]⟩ 2 = Vban.balance_of (Vban.new 0 100) 2 := by
  have h := vban_transfer_frame (Vban.new 0 100) ⟨100, [(0, 90), (1, 10)]⟩ 0 1 10 rfl
  exact ⟨h.1, h.2 2 (by decide) (by decide)⟩
